import Mathlib

/-!
Verification development for the TI TILER memory manager (android_hardware_ti_tiler).

The repository ships the public API header (src/tiler.h) and the test harness
(test/memmgr_test.c); the manager implementation itself (memmgr.c and its
helpers) is not part of the sources available here.  The definitions below are
therefore a shallow embedding modelled from the design specification
(spec.md §3, §4, §5), with the behavior pinned by the in-repo test harness where
the specification is ambiguous.  Pointers and physical addresses are modelled as
natural numbers (0 is the NULL pointer); the kernel transport is modelled as a
deterministic fresh-address generator inside the manager state.
-/

/-- Page size used by the manager (spec §6 Configuration, typical value). -/
def PAGE_SIZE : Nat := 4096

/-- View stride of the 8-bit tiled container view (spec §3, S8, 16 KiB). -/
def TILER_STRIDE_8BIT : Nat := 0x4000

/-- View stride of the 16-bit tiled container view (spec §3, S16, 32 KiB). -/
def TILER_STRIDE_16BIT : Nat := 0x8000

/-- View stride of the 32-bit tiled container view (spec §3, S32, 32 KiB). -/
def TILER_STRIDE_32BIT : Nat := 0x8000

/-- Smallest legal pixel-format code (8-bit). -/
def PIXEL_FMT_MIN : Nat := 1

/-- Pixel-format code for 8-bit tiled blocks. -/
def PIXEL_FMT_8BIT : Nat := 1

/-- Pixel-format code for 16-bit tiled blocks. -/
def PIXEL_FMT_16BIT : Nat := 2

/-- Pixel-format code for 32-bit tiled blocks. -/
def PIXEL_FMT_32BIT : Nat := 3

/-- Pixel-format code for page-mode (1D) blocks. -/
def PIXEL_FMT_PAGE : Nat := 4

/-- Largest legal pixel-format code (page mode). -/
def PIXEL_FMT_MAX : Nat := 4

/-- System-space base address of the TILER container mapping; pointers handed
out by the manager all lie at or above this address, while client heap buffers
lie below it. -/
def CONTAINER_BASE : Nat := 0x40000000

/-- Size of each physical TILER aperture (one per container view). -/
def APER_SIZE : Nat := 0x08000000

/-- Modelled from the spec: base physical address of the TILER aperture for a
given pixel format (spec §4.5 TilerMem_GetStride, range tests against the
kernel-reported aperture layout).  The kernel driver reporting the layout is not
part of the sources. -/
def aperBase (fmt : Nat) : Nat :=
  match fmt with
  | 1 => 0x60000000
  | 2 => 0x68000000
  | 3 => 0x70000000
  | _ => 0x78000000

/-- Modelled from the spec: bytes-per-pixel of a format (spec §4.1 `bpp`);
returns 0 for page mode.  The geometry library is not in the sources. -/
def def_bpp (fmt : Nat) : Nat :=
  match fmt with
  | 1 => 1
  | 2 => 2
  | 3 => 4
  | _ => 0

/-- Modelled from the spec: round a width in bytes up to a whole number of
pages (spec §4.1 `def_stride`). -/
def def_stride (width_bytes : Nat) : Nat :=
  ((width_bytes + PAGE_SIZE - 1) / PAGE_SIZE) * PAGE_SIZE

/-- Round a byte count up to a whole number of pages (allocation granularity,
spec: allocation always uses full 4k pages). -/
def pageRound (n : Nat) : Nat :=
  ((n + PAGE_SIZE - 1) / PAGE_SIZE) * PAGE_SIZE

/-- MemAllocBlock request/response record (spec §3 MemBlock). -/
structure MemAllocBlock where
  pixelFormat : Nat
  width : Nat
  height : Nat
  length : Nat
  stride : Nat
  ptr : Nat
  reserved : Nat
deriving DecidableEq

/-- An all-zero block, used as the default value for list indexing. -/
def dummyBlock : MemAllocBlock := ⟨0, 0, 0, 0, 0, 0, 0⟩

/-- Is the pixel format inside the enumerated range? -/
def fmtOK (fmt : Nat) : Bool :=
  decide (PIXEL_FMT_MIN ≤ fmt) && decide (fmt ≤ PIXEL_FMT_MAX)

/-- Modelled from the spec: per-block validation (spec §4.1 `validate_block`).
Rejects formats outside the enumerated range; for page mode requires a nonzero
length and, when a stride is given, a positive page multiple; for tiled blocks
requires nonzero width and height and, when a stride is given, a page multiple
of at least width times bytes-per-pixel. -/
def validBlock (b : MemAllocBlock) : Bool :=
  if fmtOK b.pixelFormat = false then false
  else if b.pixelFormat = PIXEL_FMT_PAGE then
    decide (0 < b.length) &&
      (decide (b.stride = 0) || decide (b.stride % PAGE_SIZE = 0))
  else
    decide (0 < b.width) && decide (0 < b.height) &&
      (decide (b.stride = 0) ||
        (decide (b.width * def_bpp b.pixelFormat ≤ b.stride) &&
          decide (b.stride % PAGE_SIZE = 0)))

/-- Modelled from the spec: fill a zero stride with the implicit stride
(spec §4.1 `canonicalize`): one page for page mode, the page-rounded row size
for tiled blocks. -/
def canonicalize (b : MemAllocBlock) : MemAllocBlock :=
  if b.stride = 0 then
    if b.pixelFormat = PIXEL_FMT_PAGE then { b with stride := PAGE_SIZE }
    else { b with stride := def_stride (b.width * def_bpp b.pixelFormat) }
  else b

/-- System-space footprint of a (canonicalized) block in bytes: the page-rounded
length for page mode, stride times height for tiled blocks. -/
def blockSize (b : MemAllocBlock) : Nat :=
  if b.pixelFormat = PIXEL_FMT_PAGE then pageRound b.length
  else b.stride * b.height

/-- Sum of the footprints of a list of blocks. -/
def totalSize (bs : List MemAllocBlock) : Nat :=
  (bs.map blockSize).sum

/-- Kind of a live buffer record (spec §3 Buffer record). -/
inductive BufKind where
  | alloc1D : BufKind
  | alloc2D : BufKind
  | map1D : BufKind
deriving DecidableEq

/-- A live buffer record: its kind and its ordered sub-blocks with geometry,
system-space pointer and physical reservation filled in (spec §3). -/
structure BufRec where
  kind : BufKind
  blocks : List MemAllocBlock
deriving DecidableEq

/-- An empty record, used as the default value for list indexing. -/
def dummyRec : BufRec := ⟨BufKind.alloc1D, []⟩

/-- The head (group identifier) pointer of a record: the first sub-block's ptr
(spec §3: the top-level ptr is always the first sub-block's ptr). -/
def headPtr (r : BufRec) : Nat :=
  match r.blocks with
  | [] => 0
  | b :: _ => b.ptr

/-- Low end of a record's system-space range. -/
def recLo (r : BufRec) : Nat := headPtr r

/-- One past the high end of a record's system-space range. -/
def recHi (r : BufRec) : Nat := headPtr r + totalSize r.blocks

/-- Modelled from the spec: whole manager state — the process-wide buffer
registry (spec §4.3) plus the deterministic model of the kernel transport, which
hands out fresh system-space addresses and fresh physical reservations. -/
structure MMState where
  registry : List BufRec
  nextPtr : Nat
  nextPhys : Nat
deriving DecidableEq

/-- The state at process start: empty registry, allocation cursors at the
container base. -/
def initState : MMState := ⟨[], CONTAINER_BASE, 0⟩

/-- Modelled from the spec: the kernel transport granting a composite
allocation (spec §4.2, §4.4 step 4) — each block in turn receives the next
system-space address, packing contiguously, and a physical reservation inside
the aperture of its own pixel format. -/
def placeBlocks : Nat → Nat → List MemAllocBlock → List MemAllocBlock
  | _, _, [] => []
  | p, c, b :: bs =>
    { b with ptr := p, reserved := aperBase b.pixelFormat + c % APER_SIZE }
      :: placeBlocks (p + blockSize b) (c + blockSize b) bs

/-- Modelled from the spec: MemMgr_Alloc (spec §4.4).  Validates and
canonicalizes every block; for a single block allocates 1D or 2D according to
the format; for two or more blocks requires every block tiled and performs one
composite contiguous allocation; on any validation failure returns NULL with the
blocks and the registry untouched. -/
def MemMgr_Alloc (s : MMState) (blocks : List MemAllocBlock) :
    Nat × List MemAllocBlock × MMState :=
  if blocks.all validBlock then
    match blocks with
    | [] => (0, blocks, s)
    | [b] =>
      let placed := placeBlocks s.nextPtr s.nextPhys [canonicalize b]
      (s.nextPtr, placed,
        ⟨⟨if b.pixelFormat = PIXEL_FMT_PAGE then BufKind.alloc1D
          else BufKind.alloc2D, placed⟩ :: s.registry,
         s.nextPtr + totalSize placed, s.nextPhys + totalSize placed⟩)
    | b1 :: b2 :: rest =>
      if (b1 :: b2 :: rest).all
          (fun b => decide (b.pixelFormat ≠ PIXEL_FMT_PAGE)) then
        let placed :=
          placeBlocks s.nextPtr s.nextPhys ((b1 :: b2 :: rest).map canonicalize)
        (s.nextPtr, placed,
          ⟨⟨BufKind.alloc2D, placed⟩ :: s.registry,
           s.nextPtr + totalSize placed, s.nextPhys + totalSize placed⟩)
      else (0, blocks, s)
  else (0, blocks, s)

/-- Preconditions of MemMgr_Map on its single page-mode block (spec §4.4 Map):
page-mode format, a non-NULL page-aligned client pointer, and a positive
page-multiple length. -/
def mapOK (b : MemAllocBlock) : Prop :=
  b.pixelFormat = PIXEL_FMT_PAGE ∧ b.ptr ≠ 0 ∧ b.ptr % PAGE_SIZE = 0 ∧
    b.length ≠ 0 ∧ b.length % PAGE_SIZE = 0

instance (b : MemAllocBlock) : Decidable (mapOK b) := by
  unfold mapOK
  exact inferInstance

/-- Modelled from the spec: MemMgr_Map (spec §4.4 Map).  Only a single
page-mode block is permitted; the client pointer must be non-NULL and
page-aligned and the length a positive page multiple.  On success the block is
re-pointed at a fresh tiler-container mapping and registered as MAP_1D; on any
failure NULL is returned with no state change. -/
def MemMgr_Map (s : MMState) (blocks : List MemAllocBlock) :
    Nat × List MemAllocBlock × MMState :=
  match blocks with
  | [b] =>
    if mapOK b then
      let placed :=
        { b with ptr := s.nextPtr, stride := PAGE_SIZE,
                 reserved := aperBase PIXEL_FMT_PAGE + s.nextPhys % APER_SIZE }
      (s.nextPtr, [placed],
        ⟨⟨BufKind.map1D, [placed]⟩ :: s.registry,
         s.nextPtr + pageRound b.length, s.nextPhys + pageRound b.length⟩)
    else (0, blocks, s)
  | _ => (0, blocks, s)

/-- Registry lookup by group identifier: finds the record whose head pointer is
the given pointer (spec §4.3 `lookup`; sub-block pointers are not group
identifiers). -/
def lookupHead (s : MMState) (p : Nat) : Option BufRec :=
  s.registry.find? (fun r => headPtr r == p)

/-- Modelled from the spec: MemMgr_Free (spec §4.4 Free).  Fails (nonzero)
without side effects if the pointer is not the head pointer of a live record or
if the record was created by Map; otherwise removes the record and returns 0. -/
def MemMgr_Free (s : MMState) (p : Nat) : Nat × MMState :=
  match lookupHead s p with
  | some r =>
    if r.kind = BufKind.map1D then (1, s)
    else (0, ⟨s.registry.filter (fun r => headPtr r != p), s.nextPtr, s.nextPhys⟩)
  | none => (1, s)

/-- Modelled from the spec: MemMgr_UnMap (spec §4.4 UnMap), symmetric to Free
but requiring a MAP_1D record. -/
def MemMgr_UnMap (s : MMState) (p : Nat) : Nat × MMState :=
  match lookupHead s p with
  | some r =>
    if r.kind = BufKind.map1D then
      (0, ⟨s.registry.filter (fun r => headPtr r != p), s.nextPtr, s.nextPhys⟩)
    else (1, s)
  | none => (1, s)

/-- Does the system-space range of a block contain the pointer? -/
def blockContains (b : MemAllocBlock) (p : Nat) : Bool :=
  decide (b.ptr ≤ p) && decide (p < b.ptr + blockSize b)

/-- Does any sub-block of the record contain the pointer? -/
def containsP (r : BufRec) (p : Nat) : Bool :=
  r.blocks.any (fun b => blockContains b p)

/-- Registry lookup by containment: the record one of whose sub-blocks contains
the pointer.  Used by the total queries (spec §4.5), which — as exercised by the
test harness on NV12 sub-blocks — recognize any address inside a live buffer. -/
def findRec (s : MMState) (p : Nat) : Option BufRec :=
  s.registry.find? (fun r => containsP r p)

/-- Modelled from the spec: MemMgr_IsMapped (spec §4.5), total over arbitrary
pointers. -/
def MemMgr_IsMapped (s : MMState) (p : Nat) : Bool :=
  (findRec s p).isSome

/-- Modelled from the spec: MemMgr_Is1DBlock (spec §4.5), true exactly for
pointers of live ALLOC_1D or MAP_1D buffers. -/
def MemMgr_Is1DBlock (s : MMState) (p : Nat) : Bool :=
  match findRec s p with
  | some r => r.kind == BufKind.alloc1D || r.kind == BufKind.map1D
  | none => false

/-- Modelled from the spec: MemMgr_Is2DBlock (spec §4.5), true exactly for
pointers of live ALLOC_2D buffers. -/
def MemMgr_Is2DBlock (s : MMState) (p : Nat) : Bool :=
  match findRec s p with
  | some r => r.kind == BufKind.alloc2D
  | none => false

/-- Modelled from the spec: MemMgr_GetStride (spec §4.5): 0 for NULL, the
stride of the containing sub-block for a registered pointer, and the page size
for a non-NULL foreign pointer (compatibility rule). -/
def MemMgr_GetStride (s : MMState) (p : Nat) : Nat :=
  if p = 0 then 0
  else
    match findRec s p with
    | some r =>
      match r.blocks.find? (fun b => blockContains b p) with
      | some b => b.stride
      | none => 0
    | none => PAGE_SIZE

/-- Modelled from the spec: TilerMem_VirtToPhys (spec §4.5): for a registered
pointer, the physical reservation of the containing sub-block plus the offset
into it; 0 for NULL; the best-effort translation — modelled as 0 — for foreign
pointers. -/
def TilerMem_VirtToPhys (s : MMState) (p : Nat) : Nat :=
  match findRec s p with
  | some r =>
    match r.blocks.find? (fun b => blockContains b p) with
    | some b => b.reserved + (p - b.ptr)
    | none => 0
  | none => 0

/-- Modelled from the spec: TilerMem_GetStride (spec §4.5): the view-stride
constant of whichever TILER aperture the physical address falls into, or 0
outside every aperture. -/
def TilerMem_GetStride (phys : Nat) : Nat :=
  if aperBase PIXEL_FMT_8BIT ≤ phys ∧ phys < aperBase PIXEL_FMT_16BIT then
    TILER_STRIDE_8BIT
  else if aperBase PIXEL_FMT_16BIT ≤ phys ∧ phys < aperBase PIXEL_FMT_32BIT then
    TILER_STRIDE_16BIT
  else if aperBase PIXEL_FMT_32BIT ≤ phys ∧ phys < aperBase PIXEL_FMT_PAGE then
    TILER_STRIDE_32BIT
  else if aperBase PIXEL_FMT_PAGE ≤ phys ∧
      phys < aperBase PIXEL_FMT_PAGE + APER_SIZE then
    PAGE_SIZE
  else 0

/-- The view-stride constant associated with a pixel format (spec §3: S8, S16,
S32, and the page size for page mode). -/
def viewStride (fmt : Nat) : Nat :=
  match fmt with
  | 1 => TILER_STRIDE_8BIT
  | 2 => TILER_STRIDE_16BIT
  | 3 => TILER_STRIDE_32BIT
  | _ => PAGE_SIZE

/-- Are the sub-block pointers of a list chained contiguously starting at the
given address, each following block starting where the previous one ends? -/
def contiguousFrom : Nat → List MemAllocBlock → Bool
  | _, [] => true
  | p, b :: bs => (b.ptr == p) && contiguousFrom (p + blockSize b) bs

/-- Is a sub-block's physical reservation inside the aperture of its own
format? -/
def reservedOK (b : MemAllocBlock) : Bool :=
  fmtOK b.pixelFormat &&
    decide (aperBase b.pixelFormat ≤ b.reserved) &&
    decide (b.reserved < aperBase b.pixelFormat + APER_SIZE)

/-- Well-formedness of one registry record: nonempty contiguous sub-blocks of
positive footprint, reservations in the right apertures, and multi-block
records always of 2D kind (spec §3 Buffer record, §4.4 step 4). -/
def recOK (r : BufRec) : Prop :=
  r.blocks ≠ [] ∧
  contiguousFrom (headPtr r) r.blocks = true ∧
  (∀ b ∈ r.blocks, 0 < blockSize b ∧ reservedOK b = true) ∧
  (r.blocks.length = 1 ∨ r.kind = BufKind.alloc2D)

instance (r : BufRec) : Decidable (recOK r) := by
  unfold recOK
  exact inferInstance

/-- Two records occupy disjoint system-space ranges (spec §3 I5). -/
def disjointRec (r1 r2 : BufRec) : Prop :=
  recHi r1 ≤ recLo r2 ∨ recHi r2 ≤ recLo r1

instance : DecidableRel disjointRec := fun r1 r2 => by
  unfold disjointRec
  exact inferInstance

/-- Well-formedness of the whole manager state: every record well formed and
lying between the container base and the allocation cursor, and all records
pairwise disjoint (spec §3 invariants I1, I2, I5). -/
def WF (s : MMState) : Prop :=
  (∀ r ∈ s.registry, recOK r ∧ CONTAINER_BASE ≤ headPtr r ∧ recHi r ≤ s.nextPtr) ∧
  s.registry.Pairwise disjointRec ∧
  CONTAINER_BASE ≤ s.nextPtr

instance (s : MMState) : Decidable (WF s) := by
  unfold WF
  exact inferInstance

/-! ### Concrete example requests and states (used to instantiate theorems) -/

/-- A one-page page-mode allocation request (test alloc_1D_test(4096, 0)). -/
def blkPage4096 : MemAllocBlock := ⟨4, 0, 0, 4096, 0, 0, 0⟩

/-- A map request for a page-aligned client buffer at 0x1000 of one page
(test map_1D_test(4096, 0)). -/
def blkMapReq : MemAllocBlock := ⟨4, 0, 0, 4096, 0, 0x1000, 0⟩

/-- The luma plane of a 64 by 64 NV12 request (test alloc_NV12(64, 64)). -/
def blkY : MemAllocBlock := ⟨1, 64, 64, 0, 0, 0, 0⟩

/-- The chroma plane of a 64 by 64 NV12 request. -/
def blkUV : MemAllocBlock := ⟨2, 32, 32, 0, 0, 0, 0⟩

/-- Result of allocating the one-page 1D buffer from the initial state. -/
def allocRes1D : Nat × List MemAllocBlock × MMState :=
  MemMgr_Alloc initState [blkPage4096]

/-- State holding one live 1D allocation. -/
def s1D : MMState := allocRes1D.2.2

/-- Head pointer of the live 1D allocation. -/
def p1D : Nat := allocRes1D.1

/-- The registry record of the live 1D allocation. -/
def rec1D : BufRec := s1D.registry.getD 0 dummyRec

/-- The sub-block of the live 1D allocation. -/
def blk1D : MemAllocBlock := rec1D.blocks.getD 0 dummyBlock

/-- State after freeing the 1D allocation again. -/
def s1Dfreed : MMState := (MemMgr_Free s1D p1D).2

/-- Result of the two-block NV12 allocation from the initial state. -/
def allocResNV12 : Nat × List MemAllocBlock × MMState :=
  MemMgr_Alloc initState [blkY, blkUV]

/-- State holding one live NV12 (two sub-block) group. -/
def sNV12 : MMState := allocResNV12.2.2

/-- The registry record of the live NV12 group. -/
def recNV12 : BufRec := sNV12.registry.getD 0 dummyRec

/-- Sub-block 0 (luma) of the live NV12 group. -/
def nvB0 : MemAllocBlock := recNV12.blocks.getD 0 dummyBlock

/-- Sub-block 1 (chroma) of the live NV12 group. -/
def nvB1 : MemAllocBlock := recNV12.blocks.getD 1 dummyBlock

/-- Result of mapping the client buffer from the initial state. -/
def mapRes : Nat × List MemAllocBlock × MMState :=
  MemMgr_Map initState [blkMapReq]

/-- State holding one live mapped 1D buffer. -/
def sMap : MMState := mapRes.2.2

/-- Head pointer of the live mapped buffer. -/
def pMap : Nat := mapRes.1

/-- The registry record of the live mapped buffer. -/
def recMap : BufRec := sMap.registry.getD 0 dummyRec

/-! ### Helper lemmas about the geometry of well-formed states -/

/-- Unfolding of totalSize over cons. -/
lemma totalSize_cons (b : MemAllocBlock) (bs : List MemAllocBlock) :
    totalSize (b :: bs) = blockSize b + totalSize bs := by
  simp [totalSize]

/-- A block of a contiguous chain lies inside the chain's footprint. -/
lemma contiguous_mem_range {q : Nat} {bs : List MemAllocBlock} {b : MemAllocBlock}
    (hc : contiguousFrom q bs = true) (hb : b ∈ bs) :
    q ≤ b.ptr ∧ b.ptr + blockSize b ≤ q + totalSize bs := by
  induction bs generalizing q with
  | nil => cases hb
  | cons x xs ih =>
    simp only [contiguousFrom, Bool.and_eq_true, beq_iff_eq] at hc
    obtain ⟨hx, hrest⟩ := hc
    rcases List.mem_cons.mp hb with hbx | hbxs
    · subst hbx
      rw [totalSize_cons]
      omega
    · have h := ih hrest hbxs
      rw [totalSize_cons]
      omega

/-- A well-formed record has a nonempty footprint. -/
lemma recOK_lo_lt_hi {r : BufRec} (hr : recOK r) : recLo r < recHi r := by
  obtain ⟨hne, -, hsz, -⟩ := hr
  unfold recLo recHi
  cases hbl : r.blocks with
  | nil => exact absurd hbl hne
  | cons b bs =>
    have hb : 0 < blockSize b := (hsz b (by rw [hbl]; exact List.mem_cons_self b bs)).1
    rw [totalSize_cons]
    omega

/-- A pointer contained in some sub-block of a well-formed record lies in the
record's footprint. -/
lemma containsP_range {r : BufRec} {p : Nat} (hr : recOK r)
    (hc : containsP r p = true) : recLo r ≤ p ∧ p < recHi r := by
  obtain ⟨-, hcont, -, -⟩ := hr
  simp only [containsP, List.any_eq_true] at hc
  obtain ⟨b, hb, hbc⟩ := hc
  simp only [blockContains, Bool.and_eq_true, decide_eq_true_eq] at hbc
  have h := contiguous_mem_range hcont hb
  unfold recLo recHi
  omega

/-- disjointRec is symmetric. -/
lemma disjointRec_symm : Symmetric disjointRec := by
  intro a b h
  unfold disjointRec at h ⊢
  omega

/-- In a family of well-formed pairwise-disjoint records, containment lookup
finds exactly the record containing the pointer. -/
lemma find_containsP_first {l : List BufRec} {r : BufRec} {p : Nat}
    (hall : ∀ r' ∈ l, recOK r') (hpw : l.Pairwise disjointRec)
    (hr : r ∈ l) (hc : containsP r p = true) :
    l.find? (fun r' => containsP r' p) = some r := by
  induction l with
  | nil => cases hr
  | cons h t ih =>
    obtain ⟨hdisj, hpwt⟩ := List.pairwise_cons.mp hpw
    rcases List.mem_cons.mp hr with hrh | hrt
    · subst hrh
      exact List.find?_cons_of_pos t hc
    · cases hcb : containsP h p with
      | true =>
        exfalso
        have h1 := containsP_range (hall h (List.mem_cons_self h t)) hcb
        have h2 := containsP_range (hall r (List.mem_cons_of_mem h hrt)) hc
        have hd := hdisj r hrt
        unfold disjointRec at hd
        omega
      | false =>
        rw [List.find?_cons_of_neg t (by simp [hcb])]
        exact ih (fun r' hr' => hall r' (List.mem_cons_of_mem h hr')) hpwt hrt

/-- A pointer strictly inside the footprint of a live record is not the head
pointer of any live record. -/
lemma interior_not_head {s : MMState} {r : BufRec} {p : Nat}
    (hWF : WF s) (hr : r ∈ s.registry) (hlo : recLo r < p) (hhi : p < recHi r) :
    ∀ r' ∈ s.registry, headPtr r' ≠ p := by
  obtain ⟨hall, hpw, -⟩ := hWF
  intro r' hr' hep
  by_cases heq : r' = r
  · subst heq
    unfold recLo at hlo
    omega
  · have hd : disjointRec r r' :=
      hpw.forall disjointRec_symm hr hr' (fun he => heq he.symm)
    have hlt : recLo r' < recHi r' := recOK_lo_lt_hi (hall r' hr').1
    unfold disjointRec at hd
    unfold recLo at hd hlt hlo
    omega

/-- Free and UnMap both fail without side effects on a pointer that heads no
live record. -/
lemma free_unmap_fail_of_no_head {s : MMState} {p : Nat}
    (h : ∀ r ∈ s.registry, headPtr r ≠ p) :
    MemMgr_Free s p = (1, s) ∧ MemMgr_UnMap s p = (1, s) := by
  have hnone : lookupHead s p = none := by
    unfold lookupHead
    rw [List.find?_eq_none]
    intro r hr
    simp only [beq_iff_eq]
    exact h r hr
  constructor
  · unfold MemMgr_Free
    rw [hnone]
  · unfold MemMgr_UnMap
    rw [hnone]

/-- Head-pointer lookup of a live record resolves to that record and to its
first sub-block, and the head pointer is non-NULL. -/
lemma findRec_head {s : MMState} {r : BufRec} {b0 : MemAllocBlock}
    {bs : List MemAllocBlock}
    (hWF : WF s) (hr : r ∈ s.registry) (hb : r.blocks = b0 :: bs) :
    findRec s b0.ptr = some r ∧
    r.blocks.find? (fun b => blockContains b b0.ptr) = some b0 ∧
    b0.ptr ≠ 0 := by
  obtain ⟨hall, hpw, -⟩ := hWF
  have hrOK := (hall r hr).1
  have hb0 : b0 ∈ r.blocks := by rw [hb]; exact List.mem_cons_self b0 bs
  have hsz : 0 < blockSize b0 := (hrOK.2.2.1 b0 hb0).1
  have hbc : blockContains b0 b0.ptr = true := by
    simp only [blockContains, Bool.and_eq_true, decide_eq_true_eq]
    omega
  have hcp : containsP r b0.ptr = true := by
    simp only [containsP, List.any_eq_true]
    exact ⟨b0, hb0, hbc⟩
  refine ⟨?_, ?_, ?_⟩
  · exact find_containsP_first (fun r' hr' => (hall r' hr').1) hpw hr hcp
  · rw [hb]
    exact List.find?_cons_of_pos bs hbc
  · have hcb : CONTAINER_BASE ≤ headPtr r := (hall r hr).2.1
    have hhp : headPtr r = b0.ptr := by
      unfold headPtr
      rw [hb]
    unfold CONTAINER_BASE at hcb
    omega

/-- A sub-block after the first of a well-formed record sits strictly inside
the record's footprint, and its own pointer is contained in the record. -/
lemma subblock_strict_interior {r : BufRec} {b0 b : MemAllocBlock}
    {rest : List MemAllocBlock}
    (hrOK : recOK r) (hb : r.blocks = b0 :: rest) (hbr : b ∈ rest) :
    recLo r < b.ptr ∧ b.ptr < recHi r ∧ containsP r b.ptr = true := by
  obtain ⟨-, hcont, hsz, -⟩ := hrOK
  have hhp : headPtr r = b0.ptr := by
    unfold headPtr
    rw [hb]
  rw [hb] at hcont
  simp only [contiguousFrom, Bool.and_eq_true, beq_iff_eq] at hcont
  obtain ⟨hx, hrest⟩ := hcont
  have hmem := contiguous_mem_range hrest hbr
  have hsz0 : 0 < blockSize b0 :=
    (hsz b0 (by rw [hb]; exact List.mem_cons_self b0 rest)).1
  have hszb : 0 < blockSize b :=
    (hsz b (by rw [hb]; exact List.mem_cons_of_mem b0 hbr)).1
  have htot : totalSize r.blocks = blockSize b0 + totalSize rest := by
    rw [hb, totalSize_cons]
  refine ⟨?_, ?_, ?_⟩
  · unfold recLo
    omega
  · unfold recHi
    omega
  · simp only [containsP, List.any_eq_true]
    refine ⟨b, by rw [hb]; exact List.mem_cons_of_mem b0 hbr, ?_⟩
    simp only [blockContains, Bool.and_eq_true, decide_eq_true_eq]
    omega

/-! ### Lemmas about block placement and canonicalization -/

/-- Placement does not change a block's footprint. -/
lemma blockSize_place (b : MemAllocBlock) (p q : Nat) :
    blockSize { b with ptr := p, reserved := q } = blockSize b := rfl

/-- Canonicalization does not change the pixel format. -/
lemma canonicalize_pixelFormat (b : MemAllocBlock) :
    (canonicalize b).pixelFormat = b.pixelFormat := by
  unfold canonicalize
  split_ifs <;> rfl

/-- Placement preserves the length of the block list. -/
lemma placeBlocks_length (cs : List MemAllocBlock) (p c : Nat) :
    (placeBlocks p c cs).length = cs.length := by
  induction cs generalizing p c with
  | nil => rfl
  | cons x xs ih => simp [placeBlocks, ih]

/-- Every placed block keeps the format, stride, height and length of a source
block. -/
lemma placeBlocks_mem {cs : List MemAllocBlock} {p c : Nat} {b' : MemAllocBlock}
    (h : b' ∈ placeBlocks p c cs) :
    ∃ b ∈ cs, b'.pixelFormat = b.pixelFormat ∧ b'.stride = b.stride ∧
      b'.height = b.height ∧ b'.length = b.length := by
  induction cs generalizing p c with
  | nil => cases h
  | cons x xs ih =>
    rcases List.mem_cons.mp h with hb | hb
    · exact ⟨x, List.mem_cons_self x xs, by rw [hb], by rw [hb], by rw [hb], by rw [hb]⟩
    · obtain ⟨b, hbm, hfacts⟩ := ih hb
      exact ⟨b, List.mem_cons_of_mem x hbm, hfacts⟩

/-- The first placed block starts at the requested base address. -/
lemma placeBlocks_head_ptr (x : MemAllocBlock) (xs : List MemAllocBlock)
    (p c : Nat) :
    ((placeBlocks p c (x :: xs)).getD 0 dummyBlock).ptr = p := rfl

/-- Indexing helper: an index below the length hits a member of the list. -/
lemma getD_mem {l : List MemAllocBlock} {i : Nat} (h : i < l.length) :
    l.getD i dummyBlock ∈ l := by
  induction l generalizing i with
  | nil => simp at h
  | cons x xs ih =>
    cases i with
    | zero => exact List.mem_cons_self x xs
    | succ n =>
      simp only [List.getD_cons_succ]
      exact List.mem_cons_of_mem x (ih (by simpa using h))

/-- Adjacent placed blocks pack contiguously: each block starts where the
previous one's footprint ends. -/
lemma placeBlocks_chain {cs : List MemAllocBlock} {p c i : Nat}
    (h : i + 1 < (placeBlocks p c cs).length) :
    ((placeBlocks p c cs).getD (i + 1) dummyBlock).ptr =
      ((placeBlocks p c cs).getD i dummyBlock).ptr +
        blockSize ((placeBlocks p c cs).getD i dummyBlock) := by
  induction cs generalizing p c i with
  | nil => simp [placeBlocks] at h
  | cons x xs ih =>
    cases i with
    | zero =>
      cases xs with
      | nil => simp [placeBlocks] at h
      | cons y ys => rfl
    | succ n =>
      have h' : n + 1 < (placeBlocks (p + blockSize x) (c + blockSize x) xs).length := by
        simp only [placeBlocks, List.length_cons] at h
        omega
      simpa only [placeBlocks, List.getD_cons_succ] using ih h'

/-! ### Validation and size positivity -/

/-- Page rounding of a positive byte count is positive. -/
lemma pageRound_pos {n : Nat} (h : 0 < n) : 0 < pageRound n := by
  unfold pageRound PAGE_SIZE
  have h1 : (4096 : Nat) ≤ n + 4096 - 1 := by omega
  have h2 : 1 ≤ (n + 4096 - 1) / 4096 := (Nat.one_le_div_iff (by norm_num)).mpr h1
  omega

/-- A valid block has an in-range pixel format. -/
lemma validBlock_fmtOK {b : MemAllocBlock} (h : validBlock b = true) :
    fmtOK b.pixelFormat = true := by
  cases hf : fmtOK b.pixelFormat
  · unfold validBlock at h
    rw [if_pos hf] at h
    cases h
  · rfl

/-- Facts extracted from validation of a page-mode block. -/
lemma validBlock_page {b : MemAllocBlock} (hp : b.pixelFormat = PIXEL_FMT_PAGE)
    (h : validBlock b = true) :
    0 < b.length ∧ (b.stride = 0 ∨ b.stride % PAGE_SIZE = 0) := by
  have hf := validBlock_fmtOK h
  unfold validBlock at h
  rw [if_neg (by simp [hf]), if_pos hp] at h
  simp only [Bool.and_eq_true, Bool.or_eq_true, decide_eq_true_eq] at h
  tauto

/-- Facts extracted from validation of a tiled block. -/
lemma validBlock_tiled {b : MemAllocBlock} (hp : b.pixelFormat ≠ PIXEL_FMT_PAGE)
    (h : validBlock b = true) :
    0 < b.width ∧ 0 < b.height ∧
      (b.stride = 0 ∨
        (b.width * def_bpp b.pixelFormat ≤ b.stride ∧ b.stride % PAGE_SIZE = 0)) := by
  have hf := validBlock_fmtOK h
  unfold validBlock at h
  rw [if_neg (by simp [hf]), if_neg hp] at h
  simp only [Bool.and_eq_true, Bool.or_eq_true, decide_eq_true_eq] at h
  tauto

/-- In-range tiled formats have positive bytes-per-pixel. -/
lemma def_bpp_pos {fmt : Nat} (h1 : fmtOK fmt = true) (h2 : fmt ≠ PIXEL_FMT_PAGE) :
    0 < def_bpp fmt := by
  simp only [fmtOK, PIXEL_FMT_MIN, PIXEL_FMT_MAX, Bool.and_eq_true,
    decide_eq_true_eq] at h1
  unfold PIXEL_FMT_PAGE at h2
  have : fmt = 1 ∨ fmt = 2 ∨ fmt = 3 := by omega
  rcases this with h | h | h <;> simp [def_bpp, h]

/-- Canonicalization preserves width, height and length. -/
lemma canonicalize_fields (b : MemAllocBlock) :
    (canonicalize b).width = b.width ∧ (canonicalize b).height = b.height ∧
      (canonicalize b).length = b.length := by
  unfold canonicalize
  split_ifs <;> exact ⟨rfl, rfl, rfl⟩

/-- A validated block, once canonicalized, has a positive footprint. -/
lemma valid_canonical_size_pos {b : MemAllocBlock} (h : validBlock b = true) :
    0 < blockSize (canonicalize b) := by
  have hfmt := validBlock_fmtOK h
  by_cases hp : b.pixelFormat = PIXEL_FMT_PAGE
  · have hlen := (validBlock_page hp h).1
    unfold blockSize
    rw [canonicalize_pixelFormat, (canonicalize_fields b).2.2, if_pos hp]
    exact pageRound_pos hlen
  · obtain ⟨hw, hh, hs⟩ := validBlock_tiled hp h
    unfold blockSize
    rw [canonicalize_pixelFormat, if_neg hp]
    have hhc : (canonicalize b).height = b.height := (canonicalize_fields b).2.1
    rw [hhc]
    have hstride : 0 < (canonicalize b).stride := by
      by_cases h0 : b.stride = 0
      · unfold canonicalize
        rw [if_pos h0, if_neg hp]
        show 0 < def_stride (b.width * def_bpp b.pixelFormat)
        have hbpp := def_bpp_pos hfmt hp
        have hwb : 0 < b.width * def_bpp b.pixelFormat := Nat.mul_pos hw hbpp
        unfold def_stride
        have h1 : PAGE_SIZE ≤ b.width * def_bpp b.pixelFormat + PAGE_SIZE - 1 := by
          unfold PAGE_SIZE
          omega
        have h2 : 1 ≤ (b.width * def_bpp b.pixelFormat + PAGE_SIZE - 1) / PAGE_SIZE :=
          (Nat.one_le_div_iff (by unfold PAGE_SIZE; norm_num)).mpr h1
        unfold PAGE_SIZE at h2 ⊢
        omega
      · unfold canonicalize
        rw [if_neg h0]
        omega
    exact Nat.mul_pos hstride hh

/-- Placed blocks carry reservations inside the aperture of their own format,
provided the source formats are in range. -/
lemma placeBlocks_reservedOK {cs : List MemAllocBlock} {p c : Nat}
    (hf : ∀ b ∈ cs, fmtOK b.pixelFormat = true) :
    ∀ b' ∈ placeBlocks p c cs, reservedOK b' = true := by
  induction cs generalizing p c with
  | nil => intro b' hb'; cases hb'
  | cons x xs ih =>
    intro b' hb'
    rcases List.mem_cons.mp hb' with hb | hb
    · subst hb
      have hx := hf x (List.mem_cons_self x xs)
      simp only [reservedOK, Bool.and_eq_true, decide_eq_true_eq]
      refine ⟨⟨hx, Nat.le_add_right _ _⟩, ?_⟩
      have : c % APER_SIZE < APER_SIZE := Nat.mod_lt c (by unfold APER_SIZE; norm_num)
      omega
    · exact ih (fun b hbm => hf b (List.mem_cons_of_mem x hbm)) b' hb

/-- The placed list is contiguous from its base address. -/
lemma placeBlocks_contiguous (cs : List MemAllocBlock) (p c : Nat) :
    contiguousFrom p (placeBlocks p c cs) = true := by
  induction cs generalizing p c with
  | nil => rfl
  | cons x xs ih =>
    simp only [placeBlocks, contiguousFrom, Bool.and_eq_true, beq_iff_eq]
    exact ⟨trivial, ih (p + blockSize x) (c + blockSize x)⟩

/-- Placement preserves the total footprint. -/
lemma placeBlocks_totalSize (cs : List MemAllocBlock) (p c : Nat) :
    totalSize (placeBlocks p c cs) = totalSize cs := by
  induction cs generalizing p c with
  | nil => rfl
  | cons x xs ih =>
    simp only [placeBlocks, totalSize_cons]
    rw [blockSize_place, ih]

/-- Placement preserves each block's positive footprint. -/
lemma placeBlocks_sizes_pos {cs : List MemAllocBlock} {p c : Nat}
    (h : ∀ b ∈ cs, 0 < blockSize b) :
    ∀ b' ∈ placeBlocks p c cs, 0 < blockSize b' := by
  intro b' hb'
  obtain ⟨b, hbm, h1, h2, h3, h4⟩ := placeBlocks_mem hb'
  have : blockSize b' = blockSize b := by
    unfold blockSize pageRound
    rw [h1, h2, h3, h4]
  rw [this]
  exact h b hbm

/-! ### Unfolding of the operations on their success paths -/

/-- Success shape of a single-block allocation. -/
lemma alloc_single_eq (s : MMState) (b : MemAllocBlock) (hv : validBlock b = true) :
    MemMgr_Alloc s [b] =
      (s.nextPtr, placeBlocks s.nextPtr s.nextPhys [canonicalize b],
       ⟨⟨if b.pixelFormat = PIXEL_FMT_PAGE then BufKind.alloc1D else BufKind.alloc2D,
          placeBlocks s.nextPtr s.nextPhys [canonicalize b]⟩ :: s.registry,
        s.nextPtr + totalSize (placeBlocks s.nextPtr s.nextPhys [canonicalize b]),
        s.nextPhys + totalSize (placeBlocks s.nextPtr s.nextPhys [canonicalize b])⟩) := by
  unfold MemMgr_Alloc
  rw [if_pos (show ([b].all validBlock) = true by simp [hv])]

/-- Success shape of a multi-block tiled allocation. -/
lemma alloc_multi_eq (s : MMState) (b1 b2 : MemAllocBlock)
    (rest : List MemAllocBlock)
    (hv : ((b1 :: b2 :: rest).all validBlock) = true)
    (ht : ((b1 :: b2 :: rest).all
      (fun b => decide (b.pixelFormat ≠ PIXEL_FMT_PAGE))) = true) :
    MemMgr_Alloc s (b1 :: b2 :: rest) =
      (s.nextPtr,
       placeBlocks s.nextPtr s.nextPhys ((b1 :: b2 :: rest).map canonicalize),
       ⟨⟨BufKind.alloc2D,
          placeBlocks s.nextPtr s.nextPhys ((b1 :: b2 :: rest).map canonicalize)⟩
            :: s.registry,
        s.nextPtr +
          totalSize (placeBlocks s.nextPtr s.nextPhys
            ((b1 :: b2 :: rest).map canonicalize)),
        s.nextPhys +
          totalSize (placeBlocks s.nextPtr s.nextPhys
            ((b1 :: b2 :: rest).map canonicalize))⟩) := by
  unfold MemMgr_Alloc
  rw [if_pos hv]
  show (if ((b1 :: b2 :: rest).all
      (fun b => decide (b.pixelFormat ≠ PIXEL_FMT_PAGE))) = true then _ else _) = _
  rw [if_pos ht]

/-- Success shape of a map. -/
lemma map_single_eq (s : MMState) (b : MemAllocBlock) (hok : mapOK b) :
    MemMgr_Map s [b] =
      (s.nextPtr,
       [{ b with ptr := s.nextPtr, stride := PAGE_SIZE, reserved := aperBase PIXEL_FMT_PAGE + s.nextPhys % APER_SIZE }],
       ⟨⟨BufKind.map1D,
          [{ b with ptr := s.nextPtr, stride := PAGE_SIZE, reserved := aperBase PIXEL_FMT_PAGE + s.nextPhys % APER_SIZE }]⟩
            :: s.registry,
        s.nextPtr + pageRound b.length, s.nextPhys + pageRound b.length⟩) := by
  unfold MemMgr_Map
  show (if mapOK b then _ else _) = _
  rw [if_pos hok]

/-! ### Claim theorems -/

/-- C3: any Alloc call in which validation of some block fails returns NULL,
leaves every block (in particular its ptr field, including block 1 of a
two-block request) untouched, and changes no registry state. -/
theorem alloc_validation_failure_total (s : MMState) (bs : List MemAllocBlock)
    (hv : bs.all validBlock = false) :
    MemMgr_Alloc s bs = (0, bs, s) ∧
    ((∀ b ∈ bs, b.ptr = 0) → ∀ b ∈ (MemMgr_Alloc s bs).2.1, b.ptr = 0) := by
  have h1 : MemMgr_Alloc s bs = (0, bs, s) := by
    unfold MemMgr_Alloc
    rw [if_neg (by simp [hv])]
  refine ⟨h1, fun hz => ?_⟩
  rw [h1]
  exact hz

/-- Witness for C3: a zero-length page-mode request and a two-block request
with a bad second block are both rejected with no state change. -/
theorem alloc_validation_failure_witness :
    MemMgr_Alloc initState [⟨4, 0, 0, 0, 0, 0, 0⟩] =
      (0, [⟨4, 0, 0, 0, 0, 0, 0⟩], initState) ∧
    MemMgr_Alloc initState [blkY, ⟨1, 4095, 16, 0, 4095, 0, 0⟩] =
      (0, [blkY, ⟨1, 4095, 16, 0, 4095, 0, 0⟩], initState) :=
  ⟨(alloc_validation_failure_total initState [⟨4, 0, 0, 0, 0, 0, 0⟩] (by decide)).1,
   (alloc_validation_failure_total initState
      [blkY, ⟨1, 4095, 16, 0, 4095, 0, 0⟩] (by decide)).1⟩

/-- C5: once a pointer has been successfully freed or unmapped it is terminal:
a further Free and a further UnMap on it both return nonzero and leave the
state unchanged. -/
theorem freed_ptr_terminal (s s' : MMState) (p : Nat)
    (h : MemMgr_Free s p = (0, s') ∨ MemMgr_UnMap s p = (0, s')) :
    MemMgr_Free s' p = (1, s') ∧ MemMgr_UnMap s' p = (1, s') := by
  have hreg : s'.registry = s.registry.filter (fun r => headPtr r != p) := by
    rcases h with h | h
    · unfold MemMgr_Free at h
      cases hfind : lookupHead s p with
      | none =>
        simp only [hfind] at h
        simp at h
      | some r =>
        simp only [hfind] at h
        by_cases hk : r.kind = BufKind.map1D
        · rw [if_pos hk] at h
          simp at h
        · rw [if_neg hk] at h
          have h2 : (⟨s.registry.filter (fun r => headPtr r != p),
              s.nextPtr, s.nextPhys⟩ : MMState) = s' := congrArg Prod.snd h
          rw [← h2]
    · unfold MemMgr_UnMap at h
      cases hfind : lookupHead s p with
      | none =>
        simp only [hfind] at h
        simp at h
      | some r =>
        simp only [hfind] at h
        by_cases hk : r.kind = BufKind.map1D
        · rw [if_pos hk] at h
          have h2 : (⟨s.registry.filter (fun r => headPtr r != p),
              s.nextPtr, s.nextPhys⟩ : MMState) = s' := congrArg Prod.snd h
          rw [← h2]
        · rw [if_neg hk] at h
          simp at h
  have hnone : lookupHead s' p = none := by
    unfold lookupHead
    rw [hreg, List.find?_eq_none]
    intro x hx
    have hne := (List.mem_filter.mp hx).2
    simp only [bne_iff_ne, ne_eq] at hne
    simp only [beq_iff_eq]
    exact hne
  constructor
  · unfold MemMgr_Free
    rw [hnone]
  · unfold MemMgr_UnMap
    rw [hnone]

/-- Witness for C5: freeing the live 1D buffer and then freeing or unmapping
the same pointer again fails with no state change. -/
theorem freed_ptr_terminal_witness :
    MemMgr_Free s1Dfreed p1D = (1, s1Dfreed) ∧
    MemMgr_UnMap s1Dfreed p1D = (1, s1Dfreed) :=
  freed_ptr_terminal s1D s1Dfreed p1D (Or.inl (by decide))

/-- C6: Free on a live mapped (MAP_1D) pointer and UnMap on a live allocated
pointer both return nonzero and leave the state — hence the buffer — intact. -/
theorem cross_kind_rejection (s : MMState) (p : Nat) (r : BufRec)
    (hfind : lookupHead s p = some r) :
    (r.kind = BufKind.map1D → MemMgr_Free s p = (1, s)) ∧
    (r.kind ≠ BufKind.map1D → MemMgr_UnMap s p = (1, s)) := by
  constructor
  · intro hk
    unfold MemMgr_Free
    simp only [hfind]
    rw [if_pos hk]
  · intro hk
    unfold MemMgr_UnMap
    simp only [hfind]
    rw [if_neg hk]

/-- Witness for C6: Free on the live mapped buffer fails and leaves the state
unchanged; UnMap on the live 1D allocation does likewise. -/
theorem cross_kind_rejection_witness :
    MemMgr_Free sMap pMap = (1, sMap) ∧ MemMgr_UnMap s1D p1D = (1, s1D) :=
  ⟨(cross_kind_rejection sMap pMap recMap (by decide)).1 (by decide),
   (cross_kind_rejection s1D p1D rec1D (by decide)).2 (by decide)⟩

/-- C7: Map succeeds only for a single-block page-mode request: a request that
is not exactly one block, or whose block is tiled, has a NULL or non-aligned
client pointer, or a length that is not a positive page multiple, returns NULL
with no state change. -/
theorem map_rejects_invalid (s : MMState) (bs : List MemAllocBlock) :
    (∀ b, bs = [b] →
      (b.pixelFormat ≠ PIXEL_FMT_PAGE ∨ b.ptr = 0 ∨ b.ptr % PAGE_SIZE ≠ 0 ∨
        b.length = 0 ∨ b.length % PAGE_SIZE ≠ 0) →
      MemMgr_Map s bs = (0, bs, s)) ∧
    (bs.length ≠ 1 → MemMgr_Map s bs = (0, bs, s)) := by
  constructor
  · intro b hbs hbad
    subst hbs
    have hnok : ¬ mapOK b := by
      unfold mapOK
      tauto
    unfold MemMgr_Map
    show (if mapOK b then _ else _) = _
    rw [if_neg hnok]
  · intro hlen
    cases bs with
    | nil => rfl
    | cons x xs =>
      cases xs with
      | nil => simp at hlen
      | cons y ys => rfl

/-- Witness for C7: a two-block map request, a tiled map request, a NULL
pointer, a misaligned pointer and a misaligned length are all rejected. -/
theorem map_rejects_invalid_witness :
    MemMgr_Map initState [blkMapReq, blkMapReq] =
      (0, [blkMapReq, blkMapReq], initState) ∧
    MemMgr_Map initState [blkY] = (0, [blkY], initState) ∧
    MemMgr_Map initState [⟨4, 0, 0, 4096, 0, 0, 0⟩] =
      (0, [⟨4, 0, 0, 4096, 0, 0, 0⟩], initState) ∧
    MemMgr_Map initState [⟨4, 0, 0, 4096, 0, 0x1003, 0⟩] =
      (0, [⟨4, 0, 0, 4096, 0, 0x1003, 0⟩], initState) ∧
    MemMgr_Map initState [⟨4, 0, 0, 4091, 0, 0x1000, 0⟩] =
      (0, [⟨4, 0, 0, 4091, 0, 0x1000, 0⟩], initState) :=
  ⟨(map_rejects_invalid initState [blkMapReq, blkMapReq]).2 (by decide),
   (map_rejects_invalid initState [blkY]).1 blkY rfl (by decide),
   (map_rejects_invalid initState [⟨4, 0, 0, 4096, 0, 0, 0⟩]).1 _ rfl (by decide),
   (map_rejects_invalid initState [⟨4, 0, 0, 4096, 0, 0x1003, 0⟩]).1 _ rfl (by decide),
   (map_rejects_invalid initState [⟨4, 0, 0, 4091, 0, 0x1000, 0⟩]).1 _ rfl (by decide)⟩

/-- C2: a successful multi-block Alloc returns block 0's pointer and packs the
sub-block pointers contiguously, each block starting at the previous block's
pointer plus stride times height. -/
theorem multiblock_alloc_packs_contiguously (s : MMState) (b1 b2 : MemAllocBlock)
    (rest : List MemAllocBlock)
    (hv : ((b1 :: b2 :: rest).all validBlock) = true)
    (ht : ((b1 :: b2 :: rest).all
      (fun b => decide (b.pixelFormat ≠ PIXEL_FMT_PAGE))) = true) :
    ((MemMgr_Alloc s (b1 :: b2 :: rest)).2.1.getD 0 dummyBlock).ptr =
      (MemMgr_Alloc s (b1 :: b2 :: rest)).1 ∧
    (∀ i, i + 1 < (MemMgr_Alloc s (b1 :: b2 :: rest)).2.1.length →
      ((MemMgr_Alloc s (b1 :: b2 :: rest)).2.1.getD (i + 1) dummyBlock).ptr =
        ((MemMgr_Alloc s (b1 :: b2 :: rest)).2.1.getD i dummyBlock).ptr +
          ((MemMgr_Alloc s (b1 :: b2 :: rest)).2.1.getD i dummyBlock).stride *
            ((MemMgr_Alloc s (b1 :: b2 :: rest)).2.1.getD i dummyBlock).height) := by
  have he := alloc_multi_eq s b1 b2 rest hv ht
  rw [he]
  constructor
  · rfl
  · intro i hi
    have hi' : i + 1 <
        (placeBlocks s.nextPtr s.nextPhys
          ((b1 :: b2 :: rest).map canonicalize)).length := hi
    have hchain := placeBlocks_chain hi'
    rw [hchain]
    have hmem :
        (placeBlocks s.nextPtr s.nextPhys
            ((b1 :: b2 :: rest).map canonicalize)).getD i dummyBlock ∈
          placeBlocks s.nextPtr s.nextPhys ((b1 :: b2 :: rest).map canonicalize) :=
      getD_mem (by omega)
    obtain ⟨c, hcm, hfmt, -, -, -⟩ := placeBlocks_mem hmem
    obtain ⟨a, ham, hac⟩ := List.mem_map.mp hcm
    have hfa : a.pixelFormat ≠ PIXEL_FMT_PAGE := by
      have := List.all_eq_true.mp ht a ham
      simpa using this
    have hfc : c.pixelFormat = a.pixelFormat := by
      rw [← hac, canonicalize_pixelFormat]
    congr 1
    unfold blockSize
    rw [if_neg (by rw [hfmt, hfc]; exact hfa)]

/-- Witness for C2: the 64 by 64 NV12 allocation returns block 0's pointer and
block 1 starts exactly stride times height bytes later. -/
theorem multiblock_alloc_packs_contiguously_witness :
    ((MemMgr_Alloc initState [blkY, blkUV]).2.1.getD 0 dummyBlock).ptr =
      (MemMgr_Alloc initState [blkY, blkUV]).1 ∧
    ((MemMgr_Alloc initState [blkY, blkUV]).2.1.getD 1 dummyBlock).ptr =
      ((MemMgr_Alloc initState [blkY, blkUV]).2.1.getD 0 dummyBlock).ptr +
        ((MemMgr_Alloc initState [blkY, blkUV]).2.1.getD 0 dummyBlock).stride *
          ((MemMgr_Alloc initState [blkY, blkUV]).2.1.getD 0 dummyBlock).height :=
  ⟨(multiblock_alloc_packs_contiguously initState blkY blkUV []
      (by decide) (by decide)).1,
   (multiblock_alloc_packs_contiguously initState blkY blkUV []
      (by decide) (by decide)).2 0 (by decide)⟩

/-- C4: GetStride is total — 0 on NULL, the page size on a non-NULL pointer
inside no live buffer, and the stride of sub-block 0 on a live buffer's group
identifier. -/
theorem getStride_totality (s : MMState) (hWF : WF s) (p : Nat) :
    (p = 0 → MemMgr_GetStride s p = 0) ∧
    ((∀ r ∈ s.registry, containsP r p = false) → p ≠ 0 →
      MemMgr_GetStride s p = PAGE_SIZE) ∧
    (∀ r ∈ s.registry, ∀ b0 bs, r.blocks = b0 :: bs → p = b0.ptr →
      MemMgr_GetStride s p = b0.stride) := by
  refine ⟨?_, ?_, ?_⟩
  · intro hp
    unfold MemMgr_GetStride
    rw [if_pos hp]
  · intro hnone hp
    have hfr : findRec s p = none := by
      unfold findRec
      rw [List.find?_eq_none]
      intro r hr
      simp [hnone r hr]
    unfold MemMgr_GetStride
    rw [if_neg hp]
    simp only [hfr]
  · intro r hr b0 bs hb hp
    subst hp
    obtain ⟨hfr, hfb, hnz⟩ := findRec_head hWF hr hb
    unfold MemMgr_GetStride
    rw [if_neg hnz]
    simp only [hfr, hfb]

/-- Witness for C4: on the state with one live 1D buffer, GetStride answers 0
for NULL, the page size for a foreign pointer, and the recorded stride for the
live head pointer. -/
theorem getStride_totality_witness :
    MemMgr_GetStride s1D 0 = 0 ∧
    MemMgr_GetStride s1D 12345 = PAGE_SIZE ∧
    MemMgr_GetStride s1D blk1D.ptr = blk1D.stride :=
  ⟨(getStride_totality s1D (by decide) 0).1 rfl,
   (getStride_totality s1D (by decide) 12345).2.1 (by decide) (by decide),
   (getStride_totality s1D (by decide) blk1D.ptr).2.2 rec1D (by decide) blk1D []
      (by decide) (by decide)⟩

/-- A physical address inside the aperture of an in-range format translates to
that format's view stride. -/
lemma TilerMem_GetStride_aperture {fmt x : Nat} (h1 : fmtOK fmt = true)
    (h3 : aperBase fmt ≤ x) (h4 : x < aperBase fmt + APER_SIZE) :
    TilerMem_GetStride x = viewStride fmt := by
  have e1 : aperBase PIXEL_FMT_8BIT = 0x60000000 := rfl
  have e2 : aperBase PIXEL_FMT_16BIT = 0x68000000 := rfl
  have e3 : aperBase PIXEL_FMT_32BIT = 0x70000000 := rfl
  have e4 : aperBase PIXEL_FMT_PAGE = 0x78000000 := rfl
  have e5 : APER_SIZE = 0x08000000 := rfl
  simp only [fmtOK, PIXEL_FMT_MIN, PIXEL_FMT_MAX, Bool.and_eq_true,
    decide_eq_true_eq] at h1
  have hcase : fmt = 1 ∨ fmt = 2 ∨ fmt = 3 ∨ fmt = 4 := by omega
  rcases hcase with h | h | h | h <;> subst h
  · rw [show (aperBase 1 : Nat) = 0x60000000 from rfl] at h3 h4
    rw [e5] at h4
    unfold TilerMem_GetStride
    rw [e1, e2, e3, e4, e5]
    rw [if_pos (by omega)]
    rfl
  · rw [show (aperBase 2 : Nat) = 0x68000000 from rfl] at h3 h4
    rw [e5] at h4
    unfold TilerMem_GetStride
    rw [e1, e2, e3, e4, e5]
    rw [if_neg (by omega), if_pos (by omega)]
    rfl
  · rw [show (aperBase 3 : Nat) = 0x70000000 from rfl] at h3 h4
    rw [e5] at h4
    unfold TilerMem_GetStride
    rw [e1, e2, e3, e4, e5]
    rw [if_neg (by omega), if_neg (by omega), if_pos (by omega)]
    rfl
  · rw [show (aperBase 4 : Nat) = 0x78000000 from rfl] at h3 h4
    rw [e5] at h4
    unfold TilerMem_GetStride
    rw [e1, e2, e3, e4, e5]
    rw [if_neg (by omega), if_neg (by omega), if_neg (by omega), if_pos (by omega)]
    rfl

/-- C9: for a live buffer's head pointer, GetStride reports the recorded
stride of sub-block 0, VirtToPhys reports sub-block 0's physical reservation,
and the kernel view-stride of that reservation is the view-stride constant of
sub-block 0's pixel format (the page size for a 1D or mapped block). -/
theorem live_buffer_stride_consistency (s : MMState) (hWF : WF s) (r : BufRec)
    (hr : r ∈ s.registry) (b0 : MemAllocBlock) (bs : List MemAllocBlock)
    (hb : r.blocks = b0 :: bs) :
    MemMgr_GetStride s b0.ptr = b0.stride ∧
    TilerMem_VirtToPhys s b0.ptr = b0.reserved ∧
    TilerMem_GetStride (TilerMem_VirtToPhys s b0.ptr) = viewStride b0.pixelFormat := by
  obtain ⟨hfr, hfb, hnz⟩ := findRec_head hWF hr hb
  have hv2p : TilerMem_VirtToPhys s b0.ptr = b0.reserved := by
    unfold TilerMem_VirtToPhys
    simp only [hfr, hfb]
    omega
  refine ⟨?_, hv2p, ?_⟩
  · unfold MemMgr_GetStride
    rw [if_neg hnz]
    simp only [hfr, hfb]
  · rw [hv2p]
    have hrOK := (hWF.1 r hr).1
    have hres : reservedOK b0 = true :=
      (hrOK.2.2.1 b0 (by rw [hb]; exact List.mem_cons_self b0 bs)).2
    simp only [reservedOK, Bool.and_eq_true, decide_eq_true_eq] at hres
    exact TilerMem_GetStride_aperture hres.1.1 hres.1.2 hres.2

/-- Witness for C9: the live 1D buffer's head pointer reports its recorded
stride, its reservation, and the page-mode view stride. -/
theorem live_buffer_stride_consistency_witness :
    MemMgr_GetStride s1D blk1D.ptr = blk1D.stride ∧
    TilerMem_VirtToPhys s1D blk1D.ptr = blk1D.reserved ∧
    TilerMem_GetStride (TilerMem_VirtToPhys s1D blk1D.ptr) =
      viewStride blk1D.pixelFormat :=
  live_buffer_stride_consistency s1D (by decide) rec1D (by decide) blk1D []
    (by decide)

/-- C8: a successful Map of a page-aligned client buffer returns a non-null
pointer distinct from the client's pointer, writes it into the block, and
registers it as a mapped 1D block: IsMapped and Is1DBlock answer true on it and
Is2DBlock answers false. -/
theorem map_success_registers (s : MMState) (hWF : WF s) (b : MemAllocBlock)
    (hok : mapOK b) (hclient : b.ptr < CONTAINER_BASE) :
    (MemMgr_Map s [b]).1 ≠ 0 ∧
    (MemMgr_Map s [b]).1 ≠ b.ptr ∧
    ((MemMgr_Map s [b]).2.1.getD 0 dummyBlock).ptr = (MemMgr_Map s [b]).1 ∧
    MemMgr_IsMapped (MemMgr_Map s [b]).2.2 (MemMgr_Map s [b]).1 = true ∧
    MemMgr_Is1DBlock (MemMgr_Map s [b]).2.2 (MemMgr_Map s [b]).1 = true ∧
    MemMgr_Is2DBlock (MemMgr_Map s [b]).2.2 (MemMgr_Map s [b]).1 = false := by
  have he := map_single_eq s b hok
  have hbase : CONTAINER_BASE ≤ s.nextPtr := hWF.2.2
  have hlen0 : 0 < b.length := by
    have h5 := hok.2.2.2.1
    omega
  set placed : MemAllocBlock := { b with ptr := s.nextPtr, stride := PAGE_SIZE, reserved := aperBase PIXEL_FMT_PAGE + s.nextPhys % APER_SIZE } with hplaced
  set snew : MMState := ⟨⟨BufKind.map1D, [placed]⟩ :: s.registry, s.nextPtr + pageRound b.length, s.nextPhys + pageRound b.length⟩ with hsnew
  have hszp : blockSize placed = pageRound b.length := by
    unfold blockSize
    rw [if_pos (show placed.pixelFormat = PIXEL_FMT_PAGE from hok.1)]
  have hcont : containsP ⟨BufKind.map1D, [placed]⟩ s.nextPtr = true := by
    unfold containsP
    simp only [List.any_cons, List.any_nil, Bool.or_false]
    unfold blockContains
    simp only [Bool.and_eq_true, decide_eq_true_eq]
    constructor
    · show s.nextPtr ≤ s.nextPtr
      exact Nat.le_refl _
    · show s.nextPtr < placed.ptr + blockSize placed
      have hp : placed.ptr = s.nextPtr := rfl
      rw [hp, hszp]
      have hpr := pageRound_pos hlen0
      omega
  have hfindnew : findRec snew s.nextPtr = some ⟨BufKind.map1D, [placed]⟩ := by
    unfold findRec
    show List.find? _ (⟨BufKind.map1D, [placed]⟩ :: s.registry) = _
    exact List.find?_cons_of_pos _ hcont
  refine ⟨?_, ?_, ?_, ?_, ?_, ?_⟩
  · rw [he]
    show s.nextPtr ≠ 0
    unfold CONTAINER_BASE at hbase
    omega
  · rw [he]
    show s.nextPtr ≠ b.ptr
    omega
  · rw [he]
    rfl
  · rw [he]
    show MemMgr_IsMapped snew s.nextPtr = true
    unfold MemMgr_IsMapped
    rw [hfindnew]
    rfl
  · rw [he]
    show MemMgr_Is1DBlock snew s.nextPtr = true
    unfold MemMgr_Is1DBlock
    rw [hfindnew]
    rfl
  · rw [he]
    show MemMgr_Is2DBlock snew s.nextPtr = false
    unfold MemMgr_Is2DBlock
    rw [hfindnew]
    rfl

/-- Witness for C8: mapping the page-aligned client buffer at 0x1000 from the
initial state yields a fresh registered mapped 1D pointer. -/
theorem map_success_registers_witness :
    (MemMgr_Map initState [blkMapReq]).1 ≠ 0 ∧
    (MemMgr_Map initState [blkMapReq]).1 ≠ blkMapReq.ptr ∧
    ((MemMgr_Map initState [blkMapReq]).2.1.getD 0 dummyBlock).ptr =
      (MemMgr_Map initState [blkMapReq]).1 ∧
    MemMgr_IsMapped (MemMgr_Map initState [blkMapReq]).2.2
      (MemMgr_Map initState [blkMapReq]).1 = true ∧
    MemMgr_Is1DBlock (MemMgr_Map initState [blkMapReq]).2.2
      (MemMgr_Map initState [blkMapReq]).1 = true ∧
    MemMgr_Is2DBlock (MemMgr_Map initState [blkMapReq]).2.2
      (MemMgr_Map initState [blkMapReq]).1 = false :=
  map_success_registers initState (by decide) blkMapReq (by decide) (by decide)

/-- C1 counterexample: in the live NV12 group allocated by the test scenario,
sub-block 1's pointer is not the group identifier, yet IsMapped and Is2DBlock
answer true on it — not "unmapped" as the claim states. -/
theorem nv12_subblock_query_counterexample :
    recNV12 ∈ sNV12.registry ∧
    recNV12.blocks.length = 2 ∧
    nvB1.ptr ≠ headPtr recNV12 ∧
    MemMgr_IsMapped sNV12 nvB1.ptr = true ∧
    MemMgr_Is2DBlock sNV12 nvB1.ptr = true := by decide

/-- C1 (amended): in a live multi-block group, the pointer of any sub-block
after the first is not a registered group identifier — Free on it returns
nonzero with no state change — while the queries report it as part of the
containing live 2D group: IsMapped and Is2DBlock answer true on it and
Is1DBlock answers false. -/
theorem subblock_ptr_not_identifier (s : MMState) (hWF : WF s) (r : BufRec)
    (hr : r ∈ s.registry) (b0 b : MemAllocBlock) (rest : List MemAllocBlock)
    (hb : r.blocks = b0 :: rest) (hbr : b ∈ rest) :
    MemMgr_Free s b.ptr = (1, s) ∧
    MemMgr_IsMapped s b.ptr = true ∧
    MemMgr_Is2DBlock s b.ptr = true ∧
    MemMgr_Is1DBlock s b.ptr = false := by
  have hrOK := (hWF.1 r hr).1
  obtain ⟨hlo, hhi, hcp⟩ := subblock_strict_interior hrOK hb hbr
  have hnh := interior_not_head hWF hr hlo hhi
  have hfail := free_unmap_fail_of_no_head hnh
  have hfr : findRec s b.ptr = some r := by
    unfold findRec
    exact find_containsP_first (fun r' hr' => (hWF.1 r' hr').1) hWF.2.1 hr hcp
  have hkind : r.kind = BufKind.alloc2D := by
    rcases hrOK.2.2.2 with hlen | hk
    · exfalso
      rw [hb] at hlen
      simp only [List.length_cons, Nat.add_left_eq_self] at hlen
      have hre : rest = [] := List.length_eq_zero.mp hlen
      rw [hre] at hbr
      cases hbr
    · exact hk
  refine ⟨hfail.1, ?_, ?_, ?_⟩
  · unfold MemMgr_IsMapped
    rw [hfr]
    rfl
  · unfold MemMgr_Is2DBlock
    simp only [hfr, hkind]
    rfl
  · unfold MemMgr_Is1DBlock
    simp only [hfr, hkind]
    rfl

/-- Witness for the amended C1: on the live NV12 group, Free on sub-block 1's
pointer fails with no state change, while IsMapped and Is2DBlock answer true
and Is1DBlock answers false on it. -/
theorem subblock_ptr_not_identifier_witness :
    MemMgr_Free sNV12 nvB1.ptr = (1, sNV12) ∧
    MemMgr_IsMapped sNV12 nvB1.ptr = true ∧
    MemMgr_Is2DBlock sNV12 nvB1.ptr = true ∧
    MemMgr_Is1DBlock sNV12 nvB1.ptr = false :=
  subblock_ptr_not_identifier sNV12 (by decide) recNV12 (by decide) nvB0 nvB1
    [nvB1] (by decide) (by decide)

/-! ### The well-formedness invariant holds initially and is preserved -/

/-- The initial state is well formed. -/
theorem WF_initState : WF initState := by decide

/-- Removing the records headed by a pointer preserves well-formedness. -/
lemma WF_filter (s : MMState) (h : WF s) (p : Nat) :
    WF ⟨s.registry.filter (fun r => headPtr r != p), s.nextPtr, s.nextPhys⟩ := by
  obtain ⟨hall, hpw, hbase⟩ := h
  refine ⟨?_, ?_, hbase⟩
  · intro r hr
    exact hall r (List.mem_of_mem_filter hr)
  · exact List.Pairwise.sublist (List.filter_sublist _) hpw

/-- Free preserves well-formedness. -/
theorem WF_free_preserved (s : MMState) (h : WF s) (p : Nat) :
    WF (MemMgr_Free s p).2 := by
  unfold MemMgr_Free
  cases hfind : lookupHead s p with
  | none =>
    simp only [hfind]
    exact h
  | some r =>
    simp only [hfind]
    by_cases hk : r.kind = BufKind.map1D
    · rw [if_pos hk]
      exact h
    · rw [if_neg hk]
      exact WF_filter s h p

/-- UnMap preserves well-formedness. -/
theorem WF_unmap_preserved (s : MMState) (h : WF s) (p : Nat) :
    WF (MemMgr_UnMap s p).2 := by
  unfold MemMgr_UnMap
  cases hfind : lookupHead s p with
  | none =>
    simp only [hfind]
    exact h
  | some r =>
    simp only [hfind]
    by_cases hk : r.kind = BufKind.map1D
    · rw [if_pos hk]
      exact WF_filter s h p
    · rw [if_neg hk]
      exact h

/-- The head pointer of a record whose blocks were just placed is the placement
base address. -/
lemma placeBlocks_headPtr (k : BufKind) (x : MemAllocBlock)
    (xs : List MemAllocBlock) (p c : Nat) :
    headPtr ⟨k, placeBlocks p c (x :: xs)⟩ = p := rfl

/-- Inserting a freshly placed record at the allocation cursor preserves
well-formedness. -/
lemma WF_insert (s : MMState) (h : WF s) (k : BufKind) (cs : List MemAllocBlock)
    (hne : cs ≠ []) (hsz : ∀ b ∈ cs, 0 < blockSize b)
    (hf : ∀ b ∈ cs, fmtOK b.pixelFormat = true)
    (hkind : cs.length = 1 ∨ k = BufKind.alloc2D) :
    WF ⟨⟨k, placeBlocks s.nextPtr s.nextPhys cs⟩ :: s.registry,
        s.nextPtr + totalSize (placeBlocks s.nextPtr s.nextPhys cs),
        s.nextPhys + totalSize (placeBlocks s.nextPtr s.nextPhys cs)⟩ := by
  obtain ⟨hall, hpw, hbase⟩ := h
  cases hcs : cs with
  | nil => exact absurd hcs hne
  | cons x xs =>
  subst hcs
  have hhead : headPtr ⟨k, placeBlocks s.nextPtr s.nextPhys (x :: xs)⟩ = s.nextPtr :=
    placeBlocks_headPtr k x xs s.nextPtr s.nextPhys
  have hrecOK : recOK ⟨k, placeBlocks s.nextPtr s.nextPhys (x :: xs)⟩ := by
    refine ⟨?_, ?_, ?_, ?_⟩
    · intro hc
      have hl := congrArg List.length hc
      rw [placeBlocks_length] at hl
      simp at hl
    · rw [hhead]
      exact placeBlocks_contiguous (x :: xs) s.nextPtr s.nextPhys
    · intro b hb
      exact ⟨placeBlocks_sizes_pos hsz b hb, placeBlocks_reservedOK hf b hb⟩
    · rcases hkind with h1 | h2
      · left
        rw [placeBlocks_length]
        exact h1
      · right
        exact h2
  refine ⟨?_, ?_, ?_⟩
  · intro r hr
    rcases List.mem_cons.mp hr with hrn | hro
    · subst hrn
      refine ⟨hrecOK, ?_, ?_⟩
      · rw [hhead]
        exact hbase
      · show recHi ⟨k, placeBlocks s.nextPtr s.nextPhys (x :: xs)⟩ ≤
            s.nextPtr + totalSize (placeBlocks s.nextPtr s.nextPhys (x :: xs))
        unfold recHi
        rw [hhead]
    · obtain ⟨h1, h2, h3⟩ := hall r hro
      refine ⟨h1, h2, ?_⟩
      show recHi r ≤ s.nextPtr + totalSize (placeBlocks s.nextPtr s.nextPhys (x :: xs))
      omega
  · rw [List.pairwise_cons]
    constructor
    · intro r' hr'
      right
      show recHi r' ≤ recLo ⟨k, placeBlocks s.nextPtr s.nextPhys (x :: xs)⟩
      unfold recLo
      rw [hhead]
      exact (hall r' hr').2.2
    · exact hpw
  · show CONTAINER_BASE ≤ s.nextPtr + totalSize (placeBlocks s.nextPtr s.nextPhys (x :: xs))
    omega

/-- Alloc preserves well-formedness. -/
theorem WF_alloc_preserved (s : MMState) (h : WF s) (bs : List MemAllocBlock) :
    WF (MemMgr_Alloc s bs).2.2 := by
  by_cases hv : bs.all validBlock = true
  · cases bs with
    | nil =>
      exact h
    | cons b1 bs' =>
      cases bs' with
      | nil =>
        have hv1 : validBlock b1 = true := by simpa using hv
        rw [alloc_single_eq s b1 hv1]
        exact WF_insert s h _ [canonicalize b1] (by simp)
          (by
            intro b hb
            rw [List.mem_singleton.mp hb]
            exact valid_canonical_size_pos hv1)
          (by
            intro b hb
            rw [List.mem_singleton.mp hb, canonicalize_pixelFormat]
            exact validBlock_fmtOK hv1)
          (Or.inl rfl)
      | cons b2 rest =>
        by_cases ht : ((b1 :: b2 :: rest).all
            (fun b => decide (b.pixelFormat ≠ PIXEL_FMT_PAGE))) = true
        · rw [alloc_multi_eq s b1 b2 rest hv ht]
          exact WF_insert s h BufKind.alloc2D ((b1 :: b2 :: rest).map canonicalize)
            (by simp)
            (by
              intro b hb
              obtain ⟨a, ham, hac⟩ := List.mem_map.mp hb
              rw [← hac]
              exact valid_canonical_size_pos (List.all_eq_true.mp hv a ham))
            (by
              intro b hb
              obtain ⟨a, ham, hac⟩ := List.mem_map.mp hb
              rw [← hac, canonicalize_pixelFormat]
              exact validBlock_fmtOK (List.all_eq_true.mp hv a ham))
            (Or.inr rfl)
        · have he : MemMgr_Alloc s (b1 :: b2 :: rest) = (0, b1 :: b2 :: rest, s) := by
            unfold MemMgr_Alloc
            rw [if_pos hv]
            show (if ((b1 :: b2 :: rest).all
                (fun b => decide (b.pixelFormat ≠ PIXEL_FMT_PAGE))) = true
              then _ else _) = _
            rw [if_neg ht]
          rw [he]
          exact h
  · have he : MemMgr_Alloc s bs = (0, bs, s) := by
      unfold MemMgr_Alloc
      rw [if_neg hv]
    rw [he]
    exact h

/-- Map preserves well-formedness. -/
theorem WF_map_preserved (s : MMState) (h : WF s) (bs : List MemAllocBlock) :
    WF (MemMgr_Map s bs).2.2 := by
  obtain ⟨hall, hpw, hbase⟩ := h
  cases bs with
  | nil => exact ⟨hall, hpw, hbase⟩
  | cons b bs' =>
    cases bs' with
    | cons c cs => exact ⟨hall, hpw, hbase⟩
    | nil =>
      by_cases hok : mapOK b
      · rw [map_single_eq s b hok]
        set placed : MemAllocBlock := { b with ptr := s.nextPtr, stride := PAGE_SIZE, reserved := aperBase PIXEL_FMT_PAGE + s.nextPhys % APER_SIZE } with hplaced
        have hlen0 : 0 < b.length := by
          have h5 := hok.2.2.2.1
          omega
        have hpr : 0 < pageRound b.length := pageRound_pos hlen0
        have hfmt : placed.pixelFormat = PIXEL_FMT_PAGE := hok.1
        have hszp : blockSize placed = pageRound b.length := by
          unfold blockSize
          rw [if_pos hfmt]
        have hres : placed.reserved = aperBase PIXEL_FMT_PAGE + s.nextPhys % APER_SIZE := rfl
        have hhead : headPtr ⟨BufKind.map1D, [placed]⟩ = s.nextPtr := rfl
        have hrecOK : recOK ⟨BufKind.map1D, [placed]⟩ := by
          refine ⟨by simp, ?_, ?_, Or.inl rfl⟩
          · simp [contiguousFrom, hhead]
          · intro bb hbb
            rw [List.mem_singleton.mp hbb]
            constructor
            · omega
            · unfold reservedOK
              simp only [Bool.and_eq_true, decide_eq_true_eq]
              rw [hfmt]
              have hm : s.nextPhys % APER_SIZE < APER_SIZE :=
                Nat.mod_lt _ (by unfold APER_SIZE; norm_num)
              exact ⟨⟨by decide, Nat.le_add_right _ _⟩, by omega⟩
        refine ⟨?_, ?_, ?_⟩
        · intro r hr
          rcases List.mem_cons.mp hr with hrn | hro
          · subst hrn
            refine ⟨hrecOK, ?_, ?_⟩
            · rw [hhead]
              exact hbase
            · show recHi ⟨BufKind.map1D, [placed]⟩ ≤ s.nextPtr + pageRound b.length
              unfold recHi
              rw [hhead]
              have ht1 : totalSize [placed] = blockSize placed := by
                simp [totalSize]
              rw [ht1, hszp]
          · obtain ⟨h1, h2, h3⟩ := hall r hro
            refine ⟨h1, h2, ?_⟩
            show recHi r ≤ s.nextPtr + pageRound b.length
            omega
        · rw [List.pairwise_cons]
          refine ⟨?_, hpw⟩
          intro r' hr'
          right
          show recHi r' ≤ recLo ⟨BufKind.map1D, [placed]⟩
          unfold recLo
          rw [hhead]
          exact (hall r' hr').2.2
        · show CONTAINER_BASE ≤ s.nextPtr + pageRound b.length
          omega
      · have he : MemMgr_Map s [b] = (0, [b], s) := by
          unfold MemMgr_Map
          show (if mapOK b then _ else _) = _
          rw [if_neg hok]
        rw [he]
        exact ⟨hall, hpw, hbase⟩
